import Mathlib

/-!
Shallow embedding of the temporal tiering and compression engine of the
cache-optimizer package (source file
`src/v3/@claude-flow/cache-optimizer/src/temporal/compression.ts`,
class `TemporalCompressor`), together with theorems settling the claims
about its specification.

Modelling conventions:

* Timestamps and durations are JavaScript numbers holding millisecond
  clock values; within the safe-integer range all the arithmetic the code
  performs on them (`-`, `<`) is exact, so they are modelled as `Int`.
* Compression ratios and the chars-per-token factors are modelled as `ℚ`.
  The code stores them in doubles; every concrete value used in a theorem
  below (`1/2`, `1/4`, `1`, integers) is dyadic, hence exact in doubles,
  so no rounding divergence is possible at those inputs.
* `Date.now()` is modelled by an explicit `now : Int` parameter.  The code
  may observe a clock advance between two of its internal `Date.now()`
  calls; the claims under study all speak about behaviour under a stable
  clock, which is exactly what a fixed `now` denotes.  Consequently the
  `durationMs` field of a transition result (wall-clock time of the pass)
  is always `0` in the model.
* Strings are modelled as Lean `String`s; `.length` counts code points
  where JavaScript counts UTF-16 units.  These agree on all
  basic-multilingual-plane content, and every concrete input used below is
  ASCII.
-/

set_option autoImplicit false

/-- Temporal tier of a cache entry (`TemporalTier` in the source). -/
inductive TemporalTier where
  | hot
  | warm
  | cold
  | archived
  deriving DecidableEq

/-- Kind of cached content (`CacheEntryType` in the source). -/
inductive CacheEntryType where
  | system_prompt
  | file_read
  | file_write
  | tool_result
  | bash_output
  | user_message
  | assistant_message
  | other
  deriving DecidableEq

/-- Configured compression strategy (`CompressionStrategy` in the source). -/
inductive CompressionStrategy where
  | summary
  | embedding
  | hybrid
  deriving DecidableEq

/-- Method recorded inside a compressed record (the spec allows
`summary`, `embedding` and `hybrid`). -/
inductive CompressionMethod where
  | summary
  | embedding
  | hybrid
  deriving DecidableEq

/-- Per-tier configuration: maximal age in milliseconds and compression
ratio (`{ maxAge, compressionRatio }` in the source). -/
structure TierConfig where
  maxAge : Int
  compressionRatio : ℚ
  deriving DecidableEq

/-- The three configured tiers (the `tiers` object of `TemporalConfig`;
`archived` has no entry of its own in the source). -/
structure TierConfigs where
  hot : TierConfig
  warm : TierConfig
  cold : TierConfig
  deriving DecidableEq

/-- Configuration of the temporal compressor (`TemporalConfig`). -/
structure TemporalConfig where
  tiers : TierConfigs
  compressionStrategy : CompressionStrategy
  promoteOnAccess : Bool
  decayRate : ℚ
  deriving DecidableEq

/-- Compressed surrogate attached to an entry (`CompressedEntry`).
The `ratio` field is `compressedTokens / originalTokens`; the code computes
it as a double and it is exact whenever the quotient is dyadic or small. -/
structure CompressedEntry where
  method : CompressionMethod
  summary : Option String
  compressedTokens : Nat
  ratio : ℚ
  originalTokens : Nat
  compressedAt : Int
  deriving DecidableEq

/-- A cache entry, restricted to the fields the compressor reads or
writes (`CacheEntry` in the source; `timestamp` is the creation time). -/
structure CacheEntry where
  id : String
  content : String
  type : CacheEntryType
  tokens : Nat
  tier : TemporalTier
  timestamp : Int
  lastAccessedAt : Int
  compressed : Option CompressedEntry
  deriving DecidableEq

/-- Result of a transition pass (`TierTransitionResult`).
`tokensSaved` is `Int` because the code computes
`oldTokens - compressed.compressedTokens`, which can be negative. -/
structure TierTransitionResult where
  hotToWarm : Nat
  warmToCold : Nat
  coldToArchived : Nat
  promoted : Nat
  tokensSaved : Int
  durationMs : Int
  deriving DecidableEq

/-- Target tier of an entry (`TemporalCompressor.determineTier`).  The
early `return 'hot'` inside the `promoteOnAccess` block is rendered as the
first branch of the conditional chain. -/
def determineTier (cfg : TemporalConfig) (now : Int) (e : CacheEntry) : TemporalTier :=
  let age := now - e.timestamp
  if cfg.promoteOnAccess ∧ now - e.lastAccessedAt < cfg.tiers.hot.maxAge then
    TemporalTier.hot
  else if age < cfg.tiers.hot.maxAge then
    TemporalTier.hot
  else if age < cfg.tiers.warm.maxAge then
    TemporalTier.warm
  else
    TemporalTier.cold

/-- Whether an entry's tier differs from its target tier
(`TemporalCompressor.needsTransition`). -/
def needsTransition (cfg : TemporalConfig) (now : Int) (e : CacheEntry) : Bool :=
  determineTier cfg now e != e.tier

/-- Position of a tier in the source's `tierOrder` array
`['hot', 'warm', 'cold', 'archived']`. -/
def tierIndex : TemporalTier → Nat
  | TemporalTier.hot => 0
  | TemporalTier.warm => 1
  | TemporalTier.cold => 2
  | TemporalTier.archived => 3

/-- Whether a transition requires compression
(`TemporalCompressor.shouldCompress`): true iff the target tier sits
strictly later in the tier order than the current tier. -/
def shouldCompress (currentTier targetTier : TemporalTier) : Bool :=
  tierIndex currentTier < tierIndex targetTier

/-- Whether a transition is a promotion toward hot
(`TemporalCompressor.isPromotion`). -/
def isPromotion (currentTier targetTier : TemporalTier) : Bool :=
  tierIndex targetTier < tierIndex currentTier

/-- Relevance decay factor per tier (`TemporalCompressor.calculateDecay`). -/
def calculateDecay (cfg : TemporalConfig) (tier : TemporalTier) : ℚ :=
  match tier with
  | TemporalTier.hot => 0
  | TemporalTier.warm => cfg.decayRate
  | TemporalTier.cold => cfg.decayRate * 2
  | TemporalTier.archived => cfg.decayRate * 3

/-- Tier cascade exactly as worded by the spec (section 4.C "Tier
assignment"): promote-on-access check first, then the age thresholds,
with `age := now − created_at`.  This is the spec-side definition used by
the refinement theorem for claim C4; `determineTier` above is the
code-side one. -/
def specTierCascade (cfg : TemporalConfig) (now : Int) (e : CacheEntry) : TemporalTier :=
  if cfg.promoteOnAccess ∧ now - e.lastAccessedAt < cfg.tiers.hot.maxAge then
    TemporalTier.hot
  else if now - e.timestamp < cfg.tiers.hot.maxAge then
    TemporalTier.hot
  else if now - e.timestamp < cfg.tiers.warm.maxAge then
    TemporalTier.warm
  else
    TemporalTier.cold

/-! ### JavaScript string primitives used by the summarizers

The compressor's extractive summarizers use `split`, `trim`,
`startsWith`, `substring`, `includes`, two anchored regular expressions,
and `JSON.parse`.  They are modelled below.  `substring(0, n)` with a
fractional bound truncates the bound toward zero, which for the
non-negative bounds arising here is the floor. -/

/-- JavaScript `\w` character class (ASCII letters, digits, underscore). -/
def isJsWordChar (c : Char) : Bool := c.isAlphanum || c == '_'

/-- Core of the JavaScript `\s` character class; the inputs under study
are ASCII, where this is exact. -/
def isJsSpace (c : Char) : Bool :=
  c == ' ' || c == '\t' || c == '\n' || c == '\r' || c == '\x0b' || c == '\x0c'

/-- JavaScript `String.prototype.includes` (for the non-empty needles the
code uses). -/
def jsIncludes (s pat : String) : Bool := (s.splitOn pat).length != 1

/-- Strip a literal from the front of a character list, or fail. -/
def dropLiteral (lit : String) (cs : List Char) : Option (List Char) :=
  if cs.take lit.length = lit.toList then some (cs.drop lit.length) else none

/-- Delimiters of the sentence-splitting regular expression `[.!?]+`. -/
def isSentenceDelim (c : Char) : Bool := c == '.' || c == '!' || c == '?'

/-- JavaScript `split` on a regular expression matching a non-empty run
of delimiter characters: maximal delimiter runs separate the pieces, and
runs at either end produce empty pieces, exactly as `split(/[.!?]+/)`. -/
def splitDelimRuns (p : Char → Bool) : List Char → List String
  | [] => [""]
  | c :: cs =>
    let rest := splitDelimRuns p cs
    if p c then
      match cs with
      | c2 :: _ => if p c2 then rest else "" :: rest
      | [] => "" :: rest
    else
      match rest with
      | s :: ss => String.mk (c :: s.toList) :: ss
      | [] => [String.mk [c]]

/-- Anchored matcher for the source's arrow-function regular expression
`(const|let|var)\s+\w+\s*=\s*(async\s+)?\(` at the start of the line.
The character classes involved are pairwise disjoint, so greedy matching
is deterministic and no backtracking case is lost. -/
def matchArrowDecl (s : String) : Bool :=
  let cs := s.toList
  let afterKw :=
    match dropLiteral "const" cs with
    | some r => some r
    | none =>
      match dropLiteral "let" cs with
      | some r => some r
      | none => dropLiteral "var" cs
  match afterKw with
  | none => false
  | some r =>
    match r with
    | [] => false
    | c :: _ =>
      if isJsSpace c then
        let r1 := r.dropWhile isJsSpace
        match r1 with
        | [] => false
        | c1 :: _ =>
          if isJsWordChar c1 then
            let r2 := (r1.dropWhile isJsWordChar).dropWhile isJsSpace
            match r2 with
            | '=' :: r3 =>
              let r4 := r3.dropWhile isJsSpace
              let r5 :=
                match dropLiteral "async" r4 with
                | some ra =>
                  match ra with
                  | ca :: _ => if isJsSpace ca then ra.dropWhile isJsSpace else r4
                  | [] => r4
                | none => r4
              match r5 with
              | '(' :: _ => true
              | _ => false
            | _ => false
          else false
      else false

/-- Anchored matcher for the source's method-signature regular expression
`\w+\s*\([^)]*\)\s*[:{]` at the start of the line. -/
def matchMethodSig (s : String) : Bool :=
  let cs := s.toList
  match cs with
  | [] => false
  | c :: _ =>
    if isJsWordChar c then
      let r1 := (cs.dropWhile isJsWordChar).dropWhile isJsSpace
      match r1 with
      | '(' :: r2 =>
        match r2.dropWhile (fun ch => !(ch == ')')) with
        | ')' :: r3 =>
          match r3.dropWhile isJsSpace with
          | ':' :: _ => true
          | c4 :: _ => c4 == '\x7b'
          | [] => false
        | _ => false
      | _ => false
    else false

/-! ### JSON values (for `summarizeToolOutput`)

`JSON.parse` is a language builtin; it is modelled by a fuel-indexed
recursive-descent parser over the JSON grammar.  Numbers are kept as
their source lexeme: re-formatting a parsed double back to a string is
floating-point behaviour, exact for the canonical integer and decimal
lexemes that occur in practice and irrelevant to every claim below.
`\uXXXX` escapes are mapped through `Char.ofNat` (lone surrogate halves,
which Lean characters cannot hold, fall to the `Char.ofNat` default). -/

/-- A parsed JSON value. -/
inductive JsValue where
  | jnull
  | jbool (b : Bool)
  | jnum (lexeme : String)
  | jstr (s : String)
  | jarr (elems : List JsValue)
  | jobj (fields : List (String × JsValue))

/-- JSON whitespace accepted between tokens by `JSON.parse`. -/
def jsonWs (c : Char) : Bool := c == ' ' || c == '\t' || c == '\n' || c == '\r'

/-- Value of one hexadecimal digit. -/
def hexVal (c : Char) : Option Nat :=
  if '0' ≤ c ∧ c ≤ '9' then some (c.toNat - '0'.toNat)
  else if 'a' ≤ c ∧ c ≤ 'f' then some (c.toNat - 'a'.toNat + 10)
  else if 'A' ≤ c ∧ c ≤ 'F' then some (c.toNat - 'A'.toNat + 10)
  else none

/-- Parse the remainder of a JSON string after the opening quote. -/
def parseJStringAux : List Char → List Char → Option (String × List Char)
  | _, [] => none
  | acc, '"' :: rest => some (String.mk acc.reverse, rest)
  | acc, '\\' :: esc :: rest =>
    match esc with
    | '"' => parseJStringAux ('"' :: acc) rest
    | '\\' => parseJStringAux ('\\' :: acc) rest
    | '/' => parseJStringAux ('/' :: acc) rest
    | 'b' => parseJStringAux ('\x08' :: acc) rest
    | 'f' => parseJStringAux ('\x0c' :: acc) rest
    | 'n' => parseJStringAux ('\n' :: acc) rest
    | 'r' => parseJStringAux ('\r' :: acc) rest
    | 't' => parseJStringAux ('\t' :: acc) rest
    | 'u' =>
      match rest with
      | h1 :: h2 :: h3 :: h4 :: rest2 =>
        match hexVal h1, hexVal h2, hexVal h3, hexVal h4 with
        | some a, some b, some c, some d =>
          parseJStringAux (Char.ofNat (((a * 16 + b) * 16 + c) * 16 + d) :: acc) rest2
        | _, _, _, _ => none
      | _ => none
    | _ => none
  | acc, c :: rest => if c.toNat < 32 then none else parseJStringAux (c :: acc) rest

/-- ASCII decimal digit test. -/
def isDigitChar (c : Char) : Bool := '0' ≤ c && c ≤ '9'

/-- Parse an optional JSON fraction part, returning its characters. -/
def parseFracPart (cs : List Char) : Option (List Char × List Char) :=
  match cs with
  | '.' :: r =>
    let ds := r.takeWhile isDigitChar
    if ds.isEmpty then none else some ('.' :: ds, r.dropWhile isDigitChar)
  | _ => some ([], cs)

/-- Parse an optional JSON exponent part, returning its characters. -/
def parseExpPart (cs : List Char) : Option (List Char × List Char) :=
  match cs with
  | [] => some ([], cs)
  | c :: r =>
    if c == 'e' || c == 'E' then
      let sr :=
        match r with
        | s :: r2 => if s == '+' || s == '-' then ([s], r2) else (([] : List Char), r)
        | [] => ([], r)
      let ds := sr.2.takeWhile isDigitChar
      if ds.isEmpty then none
      else some (c :: (sr.1 ++ ds), sr.2.dropWhile isDigitChar)
    else some ([], cs)

/-- Parse a JSON number, returning its lexeme (strict JSON grammar: no
leading zeros, mandatory digits around the dot). -/
def parseNumLexeme (cs : List Char) : Option (String × List Char) :=
  let sr :=
    match cs with
    | '-' :: r => ((['-'] : List Char), r)
    | _ => ([], cs)
  match sr.2 with
  | [] => none
  | c :: _ =>
    if !(isDigitChar c) then none
    else
      let ip :=
        if c == '0' then ((['0'] : List Char), sr.2.drop 1)
        else (sr.2.takeWhile isDigitChar, sr.2.dropWhile isDigitChar)
      let leadZeroBad : Bool :=
        c == '0' && (match ip.2 with | d :: _ => isDigitChar d | [] => false)
      if leadZeroBad then none
      else
        match parseFracPart ip.2 with
        | none => none
        | some (fp, r3) =>
          match parseExpPart r3 with
          | none => none
          | some (ep, r4) => some (String.mk (sr.1 ++ ip.1 ++ fp ++ ep), r4)

/-- Insert a key into an object under construction with JavaScript
duplicate-key semantics: a later duplicate overwrites the value but keeps
the key's original position. -/
def objInsert (fields : List (String × JsValue)) (k : String) (v : JsValue) :
    List (String × JsValue) :=
  if fields.any (fun p => p.1 == k) then
    fields.map (fun p => if p.1 == k then (k, v) else p)
  else fields ++ [(k, v)]

mutual

/-- Fuel-indexed JSON value parser; the fuel bounds nesting and is chosen
larger than the input length, which suffices because every recursive call
consumes at least one character first. -/
def parseJsonValue : Nat → List Char → Option (JsValue × List Char)
  | 0, _ => none
  | fuel + 1, cs0 =>
    let cs := cs0.dropWhile jsonWs
    match cs with
    | [] => none
    | '"' :: r => (parseJStringAux [] r).map (fun p => (JsValue.jstr p.1, p.2))
    | '\x7b' :: r =>
      let r1 := r.dropWhile jsonWs
      match r1 with
      | '\x7d' :: r2 => some (JsValue.jobj [], r2)
      | _ => (parseJsonMembers fuel r []).map (fun p => (JsValue.jobj p.1, p.2))
    | '[' :: r =>
      let r1 := r.dropWhile jsonWs
      match r1 with
      | ']' :: r2 => some (JsValue.jarr [], r2)
      | _ => (parseJsonElems fuel r).map (fun p => (JsValue.jarr p.1, p.2))
    | 't' :: _ => (dropLiteral "true" cs).map (fun r => (JsValue.jbool true, r))
    | 'f' :: _ => (dropLiteral "false" cs).map (fun r => (JsValue.jbool false, r))
    | 'n' :: _ => (dropLiteral "null" cs).map (fun r => (JsValue.jnull, r))
    | _ => (parseNumLexeme cs).map (fun p => (JsValue.jnum p.1, p.2))

/-- Parse the elements of a non-empty JSON array up to `]`. -/
def parseJsonElems : Nat → List Char → Option (List JsValue × List Char)
  | 0, _ => none
  | fuel + 1, cs =>
    match parseJsonValue fuel cs with
    | none => none
    | some (v, r) =>
      let r1 := r.dropWhile jsonWs
      match r1 with
      | ',' :: r2 =>
        match parseJsonElems fuel r2 with
        | none => none
        | some (vs, r3) => some (v :: vs, r3)
      | ']' :: r2 => some ([v], r2)
      | _ => none

/-- Parse the members of a non-empty JSON object up to the closing brace. -/
def parseJsonMembers : Nat → List Char → List (String × JsValue) →
    Option (List (String × JsValue) × List Char)
  | 0, _, _ => none
  | fuel + 1, cs, acc =>
    let cs1 := cs.dropWhile jsonWs
    match cs1 with
    | '"' :: r =>
      match parseJStringAux [] r with
      | none => none
      | some (k, r1) =>
        let r2 := r1.dropWhile jsonWs
        match r2 with
        | ':' :: r3 =>
          match parseJsonValue fuel r3 with
          | none => none
          | some (v, r4) =>
            let acc1 := objInsert acc k v
            let r5 := r4.dropWhile jsonWs
            match r5 with
            | ',' :: r6 => parseJsonMembers fuel r6 acc1
            | c :: r6 => if c == '\x7d' then some (acc1, r6) else none
            | [] => none
        | _ => none
    | _ => none

end

/-- Model of the `JSON.parse` builtin: parse a complete JSON document,
rejecting trailing garbage (which `JSON.parse` throws on). -/
def jsonParse (s : String) : Option JsValue :=
  let cs := s.toList
  match parseJsonValue (cs.length + 1) cs with
  | some (v, rest) => if (rest.dropWhile jsonWs).isEmpty then some v else none
  | none => none

mutual

/-- Model of JavaScript `String(value)` on a parsed JSON value:
`null`, booleans and numbers print their canonical form, strings pass
through, arrays join their recursively stringified elements with commas
(null elements print empty), and plain objects print
`[object Object]`. -/
def jsToString : JsValue → String
  | JsValue.jnull => "null"
  | JsValue.jbool b => if b then "true" else "false"
  | JsValue.jnum lexeme => lexeme
  | JsValue.jstr s => s
  | JsValue.jarr elems => jsArrayToString elems
  | JsValue.jobj _ => "[object Object]"

/-- JavaScript `Array.prototype.toString` body: comma-joined elements. -/
def jsArrayToString : List JsValue → String
  | [] => ""
  | v :: vs =>
    let s :=
      match v with
      | JsValue.jnull => ""
      | _ => jsToString v
    match vs with
    | [] => s
    | _ => s ++ "," ++ jsArrayToString vs

end

/-- JavaScript `typeof value === 'object'` for parsed JSON values; note
that `typeof null` is `'object'`. -/
def isTypeofObject : JsValue → Bool
  | JsValue.jnull => true
  | JsValue.jarr _ => true
  | JsValue.jobj _ => true
  | _ => false

/-- The `for (const key of keys)` loop of
`TemporalCompressor.extractJsonSummary`: accumulate `key: value` strings
until one would push the running length past `maxChars`, adding two for
the later `', '` separators. -/
def jsonSummaryEntries (maxChars : Nat) :
    List (String × JsValue) → Nat → List String
  | [], _ => []
  | (k, v) :: rest, currentLength =>
    let entryStr :=
      k ++ ": " ++ (if isTypeofObject v then "[object]" else (jsToString v).take 50)
    if currentLength + entryStr.length > maxChars then []
    else entryStr :: jsonSummaryEntries maxChars rest (currentLength + entryStr.length + 2)

/-- `TemporalCompressor.extractJsonSummary`: non-objects (and `null`) are
stringified and truncated; objects and arrays enumerate their own keys
(`Object.keys` of an array yields the index strings). -/
def extractJsonSummary (v : JsValue) (maxChars : Nat) : String :=
  match v with
  | JsValue.jarr elems =>
    String.intercalate ", "
      (jsonSummaryEntries maxChars (elems.enum.map (fun p => (toString p.1, p.2))) 0)
  | JsValue.jobj fields =>
    String.intercalate ", " (jsonSummaryEntries maxChars fields 0)
  | w => (jsToString w).take maxChars

/-! ### The four extractive summarizers -/

/-- Test of `TemporalCompressor.summarizeCode` for keeping a trimmed
line: imports, exports, declarations, or one of the two regular
expressions for arrow functions and method signatures. -/
def codeLineKept (trimmed : String) : Bool :=
  trimmed.startsWith "import " || trimmed.startsWith "export " ||
  trimmed.startsWith "function " || trimmed.startsWith "async function " ||
  trimmed.startsWith "class " || trimmed.startsWith "interface " ||
  trimmed.startsWith "type " ||
  matchArrowDecl trimmed || matchMethodSig trimmed

/-- `TemporalCompressor.summarizeCode`.  The chars-per-token factor `3.5`
is exactly representable as a double, so `ℚ` arithmetic is faithful; the
final `result || fallback` uses JavaScript falsiness of the empty
string. -/
def summarizeCode (content : String) (targetTokens : Nat) : String :=
  let targetChars : ℚ := (targetTokens : ℚ) * ((7 : ℚ) / 2)
  let importantLines := ((content.splitOn "\n").map String.trim).filter codeLineKept
  let joined := String.intercalate "\n" importantLines
  let result :=
    if targetChars < (joined.length : ℚ) then joined.take targetChars.floor.toNat ++ "..."
    else joined
  if result = "" then "[CODE SUMMARY] " ++ (content.take targetChars.floor.toNat ++ "...")
  else "[CODE SUMMARY] " ++ result

/-- `TemporalCompressor.summarizeToolOutput`: try the JSON branch when
the content starts with a brace or bracket, otherwise (or when parsing
fails) keep a head-and-tail slice. -/
def summarizeToolOutput (content : String) (targetTokens : Nat) : String :=
  let targetChars := targetTokens * 3
  let jsonBranch : Option String :=
    if content.startsWith "\x7b" || content.startsWith "[" then
      (jsonParse content).map (fun v => "[TOOL OUTPUT] " ++ extractJsonSummary v targetChars)
    else none
  match jsonBranch with
  | some s => s
  | none =>
    if targetChars < content.length then
      let half := targetChars / 2
      "[TOOL OUTPUT] " ++ content.take half ++ "..." ++ content.drop (content.length - half)
    else "[TOOL OUTPUT] " ++ content

/-- Keyword list of `TemporalCompressor.summarizeConversation`. -/
def conversationKeywords : List String :=
  ["must", "should", "important", "error", "fix", "implement", "create", "update", "delete"]

/-- `TemporalCompressor.summarizeConversation`: short content passes
through unchanged; otherwise keyword-bearing sentences are joined, then
truncated, or padded with a head slice when shorter than half the
budget (`targetChars / 2` is floating division in the source, hence the
`ℚ` comparison; the substring bound truncates). -/
def summarizeConversation (content : String) (targetTokens : Nat) : String :=
  let targetChars := targetTokens * 4
  if content.length ≤ targetChars then content
  else
    let sentences := splitDelimRuns isSentenceDelim content.toList
    let important := sentences.filter
      (fun s => conversationKeywords.any (fun kw => jsIncludes s.toLower kw))
    let joined := String.intercalate ". " important
    let result :=
      if targetChars < joined.length then joined.take targetChars ++ "..."
      else if (joined.length : ℚ) < (targetChars : ℚ) / 2 then
        content.take (targetChars / 2) ++ "..." ++ joined
      else joined
    "[CONV SUMMARY] " ++ result

/-- `TemporalCompressor.extractKeyContent`: head truncation. -/
def extractKeyContent (content : String) (targetTokens : Nat) : String :=
  let targetChars := targetTokens * 4
  if content.length ≤ targetChars then content
  else content.take targetChars ++ "..."

/-! ### Compression -/

/-- Result of one `applyCompression` call: an optional summary string and
the surrogate's token count. -/
structure CompressionOutput where
  summary : Option String
  tokens : Nat
  deriving DecidableEq

/-- `TemporalCompressor.applySummaryCompression`: type-directed
summarizer, then token estimate at four characters per token, capped at
the target. -/
def applySummaryCompression (e : CacheEntry) (targetTokens : Nat) : CompressionOutput :=
  let summary :=
    match e.type with
    | CacheEntryType.file_read => summarizeCode e.content targetTokens
    | CacheEntryType.file_write => summarizeCode e.content targetTokens
    | CacheEntryType.tool_result => summarizeToolOutput e.content targetTokens
    | CacheEntryType.bash_output => summarizeToolOutput e.content targetTokens
    | CacheEntryType.user_message => summarizeConversation e.content targetTokens
    | CacheEntryType.assistant_message => summarizeConversation e.content targetTokens
    | _ => extractKeyContent e.content targetTokens
  let estimatedTokens := ((summary.length : ℚ) / 4).ceil.toNat
  { summary := some summary, tokens := min targetTokens estimatedTokens }

/-- `TemporalCompressor.applyEmbeddingCompression`: no text is kept, the
token footprint is the fixed constant `10`. -/
def applyEmbeddingCompression (_e : CacheEntry) : CompressionOutput :=
  { summary := none, tokens := 10 }

/-- `TemporalCompressor.applyHybridCompression`: summary sized to 70% of
the target, prefixed with the embedding reference, plus five tokens for
the reference.  The source computes `targetTokens * 0.7` in doubles; the
exact `7/10` used here can differ by one ulp on the ceiling boundary, a
divergence none of the claims touch. -/
def applyHybridCompression (e : CacheEntry) (targetTokens : Nat) : CompressionOutput :=
  let summaryTargetTokens := ((targetTokens : ℚ) * ((7 : ℚ) / 10)).ceil.toNat
  let summaryResult := applySummaryCompression e summaryTargetTokens
  { summary := some ("[EMBEDDING:" ++ e.id ++ "] " ++ summaryResult.summary.getD ""),
    tokens := summaryResult.tokens + 5 }

/-- `TemporalCompressor.applyCompression`: dispatch on the configured
strategy (the source's `default` arm repeats the `summary` case and is
unreachable over the three-valued strategy type). -/
def applyCompression (e : CacheEntry) (targetTokens : Nat) :
    CompressionStrategy → CompressionOutput
  | CompressionStrategy.summary => applySummaryCompression e targetTokens
  | CompressionStrategy.embedding => applyEmbeddingCompression e
  | CompressionStrategy.hybrid => applyHybridCompression e targetTokens

/-- Tier configuration consulted when compressing for a target tier:
`this.config.tiers[targetTier === 'archived' ? 'cold' : targetTier]` —
the archived tier reads the cold tier's configuration. -/
def tierConfigFor (cfg : TemporalConfig) (targetTier : TemporalTier) : TierConfig :=
  match targetTier with
  | TemporalTier.hot => cfg.tiers.hot
  | TemporalTier.warm => cfg.tiers.warm
  | TemporalTier.cold => cfg.tiers.cold
  | TemporalTier.archived => cfg.tiers.cold

/-- `TemporalCompressor.compressEntry`: no compression for the hot tier
or a ratio of at least one; otherwise apply the configured strategy
toward `ceil(tokens × ratio)` target tokens and record the result.  The
`ratio` field divides in `ℚ` where the source divides doubles (for a
zero-token entry the source would produce an infinite ratio; no claim
depends on that field). -/
def compressEntry (cfg : TemporalConfig) (now : Int) (e : CacheEntry)
    (targetTier : TemporalTier) : Option CompressedEntry :=
  if targetTier = TemporalTier.hot then none
  else
    let compressionRatio := (tierConfigFor cfg targetTier).compressionRatio
    if 1 ≤ compressionRatio then none
    else
      let originalTokens := e.tokens
      let targetTokens := ((originalTokens : ℚ) * compressionRatio).ceil.toNat
      let compressed := applyCompression e targetTokens cfg.compressionStrategy
      some
        { method :=
            if cfg.compressionStrategy = CompressionStrategy.embedding then
              CompressionMethod.embedding
            else CompressionMethod.summary,
          summary := compressed.summary,
          compressedTokens := compressed.tokens,
          ratio := (compressed.tokens : ℚ) / (originalTokens : ℚ),
          originalTokens := originalTokens,
          compressedAt := now }

/-! ### The transition pass -/

/-- Effective token count read by the pass before compressing:
`entry.compressed?.compressedTokens ?? entry.tokens`. -/
def oldTokensOf (e : CacheEntry) : Nat :=
  match e.compressed with
  | some c => c.compressedTokens
  | none => e.tokens

/-- The `// Track transition` branch chain of
`TemporalCompressor.processTransitions`. -/
def trackTransition (currentTier targetTier : TemporalTier)
    (r : TierTransitionResult) : TierTransitionResult :=
  if currentTier = TemporalTier.hot ∧ targetTier = TemporalTier.warm then
    { r with hotToWarm := r.hotToWarm + 1 }
  else if currentTier = TemporalTier.warm ∧ targetTier = TemporalTier.cold then
    { r with warmToCold := r.warmToCold + 1 }
  else if currentTier = TemporalTier.cold ∧ targetTier = TemporalTier.archived then
    { r with coldToArchived := r.coldToArchived + 1 }
  else if isPromotion currentTier targetTier then
    { r with promoted := r.promoted + 1 }
  else r

/-- Body of the `for (const entry of entries)` loop of
`TemporalCompressor.processTransitions`: compute the target tier, skip if
unchanged, compress on demotion when the compressor yields a record
(accumulating `tokensSaved`), track the transition counters against the
old tier, and finally update the tier. -/
def transitionStep (cfg : TemporalConfig) (now : Int) (e : CacheEntry)
    (acc : TierTransitionResult) : CacheEntry × TierTransitionResult :=
  let targetTier := determineTier cfg now e
  if targetTier = e.tier then (e, acc)
  else
    let compRes :=
      if shouldCompress e.tier targetTier then compressEntry cfg now e targetTier else none
    let e1 :=
      match compRes with
      | some c => { e with compressed := some c }
      | none => e
    let acc1 :=
      match compRes with
      | some c =>
        { acc with
          tokensSaved := acc.tokensSaved + (oldTokensOf e : Int) - (c.compressedTokens : Int) }
      | none => acc
    ({ e1 with tier := targetTier }, trackTransition e.tier targetTier acc1)

/-- The loop of `processTransitions`, threading the result accumulator
left to right and returning the mutated entries. -/
def processTransitionsAux (cfg : TemporalConfig) (now : Int) :
    List CacheEntry → TierTransitionResult → List CacheEntry × TierTransitionResult
  | [], acc => ([], acc)
  | e :: es, acc =>
    let p := transitionStep cfg now e acc
    let q := processTransitionsAux cfg now es p.2
    (p.1 :: q.1, q.2)

/-- The all-zero result literal `processTransitions` starts from
(`durationMs` stays `0` under the fixed clock of the model). -/
def emptyTransitionResult : TierTransitionResult :=
  { hotToWarm := 0, warmToCold := 0, coldToArchived := 0, promoted := 0,
    tokensSaved := 0, durationMs := 0 }

/-- `TemporalCompressor.processTransitions` over an explicit entry list,
returning the mutated entries next to the result record. -/
def processTransitions (cfg : TemporalConfig) (now : Int) (entries : List CacheEntry) :
    List CacheEntry × TierTransitionResult :=
  processTransitionsAux cfg now entries emptyTransitionResult

/-- Net `tokensSaved` contribution of a single entry during a pass. -/
def savedOf (cfg : TemporalConfig) (now : Int) (e : CacheEntry) : Int :=
  if determineTier cfg now e = e.tier then 0
  else
    match
      (if shouldCompress e.tier (determineTier cfg now e) then
        compressEntry cfg now e (determineTier cfg now e)
      else none) with
    | some c => (oldTokensOf e : Int) - (c.compressedTokens : Int)
    | none => 0

/-! ### Concrete configurations and entries used as test vectors -/

/-- Embedding-strategy configuration: warm compresses at ratio `1/2`,
promotion on access disabled. -/
def cfgEmb : TemporalConfig :=
  { tiers :=
      { hot := { maxAge := 100, compressionRatio := 1 },
        warm := { maxAge := 1000, compressionRatio := (1 : ℚ) / 2 },
        cold := { maxAge := 10000, compressionRatio := (1 : ℚ) / 4 } },
    compressionStrategy := CompressionStrategy.embedding,
    promoteOnAccess := false,
    decayRate := 0 }

/-- A five-token hot entry created at time `0`. -/
def entrySmall : CacheEntry :=
  { id := "e1", content := "", type := CacheEntryType.other, tokens := 5,
    tier := TemporalTier.hot, timestamp := 0, lastAccessedAt := 0, compressed := none }

/-- Compressed record `compressEntry cfgEmb 500 entrySmall warm` produces:
ten embedding-reference tokens against five original tokens. -/
def recEmb : CompressedEntry :=
  { method := CompressionMethod.embedding, summary := none, compressedTokens := 10,
    ratio := 2, originalTokens := 5, compressedAt := 500 }

/-- Promotion-enabled configuration whose ratios are all `1` (so the
compressor never produces a record). -/
def cfgPromote : TemporalConfig :=
  { tiers :=
      { hot := { maxAge := 100, compressionRatio := 1 },
        warm := { maxAge := 1000, compressionRatio := 1 },
        cold := { maxAge := 10000, compressionRatio := 1 } },
    compressionStrategy := CompressionStrategy.summary,
    promoteOnAccess := true,
    decayRate := 0 }

/-- A compressed record carried by `entryColdCompressed`. -/
def recCold : CompressedEntry :=
  { method := CompressionMethod.summary, summary := some "s", compressedTokens := 3,
    ratio := (3 : ℚ) / 100, originalTokens := 100, compressedAt := 10 }

/-- A cold entry holding a compressed record, accessed at time `500`. -/
def entryColdCompressed : CacheEntry :=
  { id := "e2", content := "", type := CacheEntryType.other, tokens := 100,
    tier := TemporalTier.cold, timestamp := 0, lastAccessedAt := 500,
    compressed := some recCold }

/-- Configuration without compression (all ratios `1`) and a short warm
age bound, for exhibiting a direct hot-to-cold demotion. -/
def cfgNoComp : TemporalConfig :=
  { tiers :=
      { hot := { maxAge := 100, compressionRatio := 1 },
        warm := { maxAge := 200, compressionRatio := 1 },
        cold := { maxAge := 300, compressionRatio := 1 } },
    compressionStrategy := CompressionStrategy.summary,
    promoteOnAccess := false,
    decayRate := 0 }

/-- A hot entry created at time `0`, old enough at time `1000` to skip
straight past warm. -/
def entryOldHot : CacheEntry :=
  { id := "e3", content := "", type := CacheEntryType.other, tokens := 50,
    tier := TemporalTier.hot, timestamp := 0, lastAccessedAt := 0, compressed := none }

/-- Forty characters of content. -/
def content40 : String := String.mk (List.replicate 40 'a')

/-- Summary-strategy configuration whose cold ratio is `1/2`. -/
def cfgSummaryHalf : TemporalConfig :=
  { tiers :=
      { hot := { maxAge := 100, compressionRatio := 1 },
        warm := { maxAge := 1000, compressionRatio := (1 : ℚ) / 2 },
        cold := { maxAge := 10000, compressionRatio := (1 : ℚ) / 2 } },
    compressionStrategy := CompressionStrategy.summary,
    promoteOnAccess := false,
    decayRate := 0 }

/-- Same as `cfgSummaryHalf` with the cold ratio set to the spec's
implicit archived ratio `0.03`. -/
def cfgSummary003 : TemporalConfig :=
  { cfgSummaryHalf with
    tiers := { cfgSummaryHalf.tiers with
               cold := { maxAge := 10000, compressionRatio := (3 : ℚ) / 100 } } }

/-- A hundred-token cold entry with forty characters of content. -/
def entryHundred : CacheEntry :=
  { id := "e7", content := content40, type := CacheEntryType.other, tokens := 100,
    tier := TemporalTier.cold, timestamp := 0, lastAccessedAt := 0, compressed := none }

/-- Hybrid-strategy variant of `cfgSummaryHalf`. -/
def cfgHyb : TemporalConfig :=
  { cfgSummaryHalf with compressionStrategy := CompressionStrategy.hybrid }

/-- An entry whose timestamps lie in the future of the clock value `3`
used with it. -/
def entryFresh : CacheEntry :=
  { id := "e9", content := "", type := CacheEntryType.other, tokens := 5,
    tier := TemporalTier.hot, timestamp := 10, lastAccessedAt := 10, compressed := none }

/-- An archived entry created at time `0`. -/
def entryArch : CacheEntry :=
  { id := "e10", content := "", type := CacheEntryType.other, tokens := 7,
    tier := TemporalTier.archived, timestamp := 0, lastAccessedAt := 0, compressed := none }

/-- The target tier computed by `determineTier` is never `archived`. -/
theorem determineTier_cases (cfg : TemporalConfig) (now : Int) (e : CacheEntry) :
    determineTier cfg now e = TemporalTier.hot ∨
    determineTier cfg now e = TemporalTier.warm ∨
    determineTier cfg now e = TemporalTier.cold := by
  simp only [determineTier]
  split_ifs <;> simp

/-- `determineTier` reads only the two timestamps of an entry. -/
theorem determineTier_congr (cfg : TemporalConfig) (now : Int) (a b : CacheEntry)
    (hts : a.timestamp = b.timestamp) (hla : a.lastAccessedAt = b.lastAccessedAt) :
    determineTier cfg now a = determineTier cfg now b := by
  simp only [determineTier, hts, hla]

/-- One loop iteration preserves the timestamps and sets the tier to the
target tier of its input entry. -/
theorem transitionStep_fst (cfg : TemporalConfig) (now : Int) (e : CacheEntry)
    (acc : TierTransitionResult) :
    (transitionStep cfg now e acc).1.timestamp = e.timestamp ∧
    (transitionStep cfg now e acc).1.lastAccessedAt = e.lastAccessedAt ∧
    (transitionStep cfg now e acc).1.tier = determineTier cfg now e := by
  simp only [transitionStep]
  split_ifs with h hsc
  · exact ⟨rfl, rfl, h.symm⟩
  · cases hc : compressEntry cfg now e (determineTier cfg now e) <;> simp [hc]
  · exact ⟨rfl, rfl, rfl⟩

/-- One loop iteration leaves an entry untouched when its tier already
matches its target tier. -/
theorem transitionStep_skip (cfg : TemporalConfig) (now : Int) (e : CacheEntry)
    (acc : TierTransitionResult) (h : determineTier cfg now e = e.tier) :
    transitionStep cfg now e acc = (e, acc) := by
  simp only [transitionStep]
  rw [if_pos h]

/-- After one pass, every output entry already sits in its target tier. -/
theorem processTransitionsAux_out (cfg : TemporalConfig) (now : Int) :
    ∀ (es : List CacheEntry) (acc : TierTransitionResult) (x : CacheEntry),
      x ∈ (processTransitionsAux cfg now es acc).1 → determineTier cfg now x = x.tier
  | [], _, x, hx => by simp [processTransitionsAux] at hx
  | e :: es, acc, x, hx => by
    simp only [processTransitionsAux, List.mem_cons] at hx
    rcases hx with hx | hx
    · subst hx
      obtain ⟨hts, hla, htier⟩ := transitionStep_fst cfg now e acc
      rw [determineTier_congr cfg now _ e hts hla]
      exact htier.symm
    · exact processTransitionsAux_out cfg now es (transitionStep cfg now e acc).2 x hx

/-- A pass over entries that are all in their target tier is a no-op. -/
theorem processTransitionsAux_fixed (cfg : TemporalConfig) (now : Int) :
    ∀ (es : List CacheEntry) (acc : TierTransitionResult),
      (∀ e ∈ es, determineTier cfg now e = e.tier) →
      processTransitionsAux cfg now es acc = (es, acc)
  | [], acc, _ => rfl
  | e :: es, acc, h => by
    have he := h e (List.mem_cons_self e es)
    simp only [processTransitionsAux, transitionStep_skip cfg now e acc he]
    rw [processTransitionsAux_fixed cfg now es acc (fun x hx => h x (List.mem_cons_of_mem e hx))]

/-- Field-wise characterization of the tracking branch chain: the three
demotion counters fire on their exact tier pair, promotions fire exactly
when `isPromotion` holds (the branches are mutually exclusive), and the
remaining fields pass through. -/
theorem trackTransition_spec (cur tgt : TemporalTier) (r : TierTransitionResult) :
    trackTransition cur tgt r =
      { r with
        hotToWarm := r.hotToWarm +
          (if cur = TemporalTier.hot ∧ tgt = TemporalTier.warm then 1 else 0),
        warmToCold := r.warmToCold +
          (if cur = TemporalTier.warm ∧ tgt = TemporalTier.cold then 1 else 0),
        coldToArchived := r.coldToArchived +
          (if cur = TemporalTier.cold ∧ tgt = TemporalTier.archived then 1 else 0),
        promoted := r.promoted + (if isPromotion cur tgt then 1 else 0) } := by
  cases cur <;> cases tgt <;> simp [trackTransition, isPromotion, tierIndex]

/-- Field-wise characterization of one loop iteration's effect on the
result accumulator. -/
theorem transitionStep_snd (cfg : TemporalConfig) (now : Int) (e : CacheEntry)
    (acc : TierTransitionResult) :
    (transitionStep cfg now e acc).2 =
      { acc with
        hotToWarm := acc.hotToWarm +
          (if e.tier = TemporalTier.hot ∧ determineTier cfg now e = TemporalTier.warm
            then 1 else 0),
        warmToCold := acc.warmToCold +
          (if e.tier = TemporalTier.warm ∧ determineTier cfg now e = TemporalTier.cold
            then 1 else 0),
        coldToArchived := acc.coldToArchived +
          (if e.tier = TemporalTier.cold ∧ determineTier cfg now e = TemporalTier.archived
            then 1 else 0),
        promoted := acc.promoted +
          (if isPromotion e.tier (determineTier cfg now e) then 1 else 0),
        tokensSaved := acc.tokensSaved + savedOf cfg now e } := by
  rcases Decidable.em (determineTier cfg now e = e.tier) with h | h
  · rw [transitionStep_skip cfg now e acc h]
    have hsv : savedOf cfg now e = 0 := by rw [savedOf, if_pos h]
    rw [hsv, h]
    cases he : e.tier <;> simp [isPromotion, tierIndex]
  · have hstep : (transitionStep cfg now e acc).2 =
        trackTransition e.tier (determineTier cfg now e)
          (match (if shouldCompress e.tier (determineTier cfg now e) then
              compressEntry cfg now e (determineTier cfg now e) else none) with
            | some c =>
              { acc with
                tokensSaved :=
                  acc.tokensSaved + (oldTokensOf e : Int) - (c.compressedTokens : Int) }
            | none => acc) := by
      simp only [transitionStep]
      rw [if_neg h]
    rw [hstep, trackTransition_spec]
    cases hc : (if shouldCompress e.tier (determineTier cfg now e) then
        compressEntry cfg now e (determineTier cfg now e) else none) with
    | none =>
      have hsv : savedOf cfg now e = 0 := by
        rw [savedOf, if_neg h, hc]
      rw [hsv]
      simp
    | some c =>
      have hsv : savedOf cfg now e = (oldTokensOf e : Int) - (c.compressedTokens : Int) := by
        rw [savedOf, if_neg h, hc]
      rw [hsv]
      obtain ⟨a1, a2, a3, a4, a5, a6⟩ := acc
      simp only [TierTransitionResult.mk.injEq, and_true, true_and]
      omega

/-- Result of a whole pass, field by field: each counter counts the
entries whose tier pair fires its branch, and `tokensSaved` accumulates
the per-entry contributions. -/
theorem processTransitionsAux_counts (cfg : TemporalConfig) (now : Int) :
    ∀ (es : List CacheEntry) (acc : TierTransitionResult),
      (processTransitionsAux cfg now es acc).2 =
        { hotToWarm := acc.hotToWarm + es.countP (fun e =>
            decide (e.tier = TemporalTier.hot ∧
              determineTier cfg now e = TemporalTier.warm)),
          warmToCold := acc.warmToCold + es.countP (fun e =>
            decide (e.tier = TemporalTier.warm ∧
              determineTier cfg now e = TemporalTier.cold)),
          coldToArchived := acc.coldToArchived + es.countP (fun e =>
            decide (e.tier = TemporalTier.cold ∧
              determineTier cfg now e = TemporalTier.archived)),
          promoted := acc.promoted + es.countP (fun e =>
            isPromotion e.tier (determineTier cfg now e)),
          tokensSaved := acc.tokensSaved + (es.map (savedOf cfg now)).sum,
          durationMs := acc.durationMs }
  | [], acc => by
    obtain ⟨a1, a2, a3, a4, a5, a6⟩ := acc
    simp [processTransitionsAux]
  | e :: es, acc => by
    simp only [processTransitionsAux]
    rw [processTransitionsAux_counts cfg now es (transitionStep cfg now e acc).2,
        transitionStep_snd]
    simp only [List.countP_cons, List.map_cons, List.sum_cons, decide_eq_true_eq,
      TierTransitionResult.mk.injEq]
    repeat' apply And.intro
    all_goals first
      | trivial
      | omega

/-- Pointwise classification of tier changes: a changed entry is a
hot-to-warm, warm-to-cold, cold-to-archived, promotion, or direct
hot-to-cold case, and these classes are disjoint. -/
theorem change_count_split (cfg : TemporalConfig) (now : Int) (es : List CacheEntry) :
    es.countP (fun e => needsTransition cfg now e) =
      es.countP (fun e => decide (e.tier = TemporalTier.hot ∧
        determineTier cfg now e = TemporalTier.warm)) +
      es.countP (fun e => decide (e.tier = TemporalTier.warm ∧
        determineTier cfg now e = TemporalTier.cold)) +
      es.countP (fun e => decide (e.tier = TemporalTier.cold ∧
        determineTier cfg now e = TemporalTier.archived)) +
      es.countP (fun e => isPromotion e.tier (determineTier cfg now e)) +
      es.countP (fun e => decide (e.tier = TemporalTier.hot ∧
        determineTier cfg now e = TemporalTier.cold)) := by
  induction es with
  | nil => simp
  | cons e es ih =>
    simp only [List.countP_cons]
    rw [ih]
    rcases determineTier_cases cfg now e with h | h | h <;>
      cases he : e.tier <;>
        simp [needsTransition, h, he, isPromotion, tierIndex] <;> omega

/-! ### Claim theorems -/

/-- C1: the claim states that compression never increases the effective
token count and that an increasing compression is discarded with
`compressed` left unset.  The code has no such guard: with the embedding
strategy a five-token entry demoted to warm receives a compressed record
of ten tokens (the fixed embedding footprint), the record is installed,
and the pass books a negative `tokensSaved` of `-5`.  This theorem
evaluates the code at that failing input. -/
theorem c1_embedding_compression_increases_tokens :
    compressEntry cfgEmb 500 entrySmall TemporalTier.warm = some recEmb ∧
    (processTransitions cfgEmb 500 [entrySmall]).2.tokensSaved = -5 ∧
    (processTransitions cfgEmb 500 [entrySmall]).1 =
      [{ entrySmall with tier := TemporalTier.warm, compressed := some recEmb }] ∧
    decide (recEmb.compressedTokens ≤ entrySmall.tokens) = false := by
  refine ⟨?_, ?_, ?_, ?_⟩ <;> with_unfolding_all rfl

/-- C2: the claim states that hot entries carry no `compressed` field and
that promotion back to hot clears it.  The transition pass never deletes
`compressed`: promoting a cold entry with a compressed record yields a
hot entry still holding the record.  This theorem evaluates the code at
that failing input. -/
theorem c2_promotion_keeps_compressed_field :
    (processTransitions cfgPromote 500 [entryColdCompressed]).1 =
      [{ entryColdCompressed with tier := TemporalTier.hot }] ∧
    ({ entryColdCompressed with tier := TemporalTier.hot }).tier = TemporalTier.hot ∧
    ({ entryColdCompressed with tier := TemporalTier.hot }).compressed = some recCold ∧
    (processTransitions cfgPromote 500 [entryColdCompressed]).2.promoted = 1 := by
  refine ⟨?_, ?_, ?_, ?_⟩ <;> with_unfolding_all rfl

/-- C3 counterexample: a direct hot-to-cold demotion is executed by the
pass (the entry's tier changes from hot to cold) yet the returned result
equals the all-zero record: no counter records the change, contradicting
the claim that every tier change is counted in exactly one counter. -/
theorem c3_hot_to_cold_change_uncounted :
    (processTransitions cfgNoComp 1000 [entryOldHot]).2 = emptyTransitionResult ∧
    (processTransitions cfgNoComp 1000 [entryOldHot]).1 =
      [{ entryOldHot with tier := TemporalTier.cold }] ∧
    decide (TemporalTier.cold = entryOldHot.tier) = false := by
  refine ⟨?_, ?_, ?_⟩ <;> with_unfolding_all rfl

/-- C3 as amended: each of `hotToWarm`, `warmToCold`, `coldToArchived`
counts exactly its tier pair, `promoted` counts exactly the promotions
toward hot, `tokensSaved` accumulates the tokens freed by compression,
and the four counters together account for every entry whose tier
changes except the direct hot-to-cold demotions, which no counter
records. -/
theorem c3_counters_characterized (cfg : TemporalConfig) (now : Int) (es : List CacheEntry) :
    (processTransitions cfg now es).2.hotToWarm = es.countP (fun e =>
        decide (e.tier = TemporalTier.hot ∧
          determineTier cfg now e = TemporalTier.warm)) ∧
    (processTransitions cfg now es).2.warmToCold = es.countP (fun e =>
        decide (e.tier = TemporalTier.warm ∧
          determineTier cfg now e = TemporalTier.cold)) ∧
    (processTransitions cfg now es).2.coldToArchived = es.countP (fun e =>
        decide (e.tier = TemporalTier.cold ∧
          determineTier cfg now e = TemporalTier.archived)) ∧
    (processTransitions cfg now es).2.promoted = es.countP (fun e =>
        isPromotion e.tier (determineTier cfg now e)) ∧
    (processTransitions cfg now es).2.tokensSaved = (es.map (savedOf cfg now)).sum ∧
    (processTransitions cfg now es).2.hotToWarm +
        (processTransitions cfg now es).2.warmToCold +
        (processTransitions cfg now es).2.coldToArchived +
        (processTransitions cfg now es).2.promoted +
        es.countP (fun e => decide (e.tier = TemporalTier.hot ∧
          determineTier cfg now e = TemporalTier.cold)) =
      es.countP (fun e => needsTransition cfg now e) := by
  have h := processTransitionsAux_counts cfg now es emptyTransitionResult
  have hsplit := change_count_split cfg now es
  refine ⟨?_, ?_, ?_, ?_, ?_, ?_⟩ <;>
    (simp only [processTransitions]
     rw [h]
     simp only [emptyTransitionResult]
     omega)

/-- C4: `determineTier` computes exactly the cascade worded by the spec:
promote-on-access first, then the hot and warm age bounds, else cold. -/
theorem c4_determineTier_follows_spec_cascade (cfg : TemporalConfig) (now : Int)
    (e : CacheEntry) : determineTier cfg now e = specTierCascade cfg now e := rfl

/-- C5: the age-based pass never assigns `archived`: `determineTier`
ranges over hot, warm and cold only, and after a transition pass no
entry's tier is `archived`, however old an entry is. -/
theorem c5_age_transitions_never_archive (cfg : TemporalConfig) (now : Int)
    (es : List CacheEntry) :
    (∀ e : CacheEntry, determineTier cfg now e ∈
      [TemporalTier.hot, TemporalTier.warm, TemporalTier.cold]) ∧
    (processTransitions cfg now es).1.all
      (fun e => e.tier != TemporalTier.archived) = true := by
  constructor
  · intro e
    rcases determineTier_cases cfg now e with h | h | h <;> simp [h]
  · rw [List.all_eq_true]
    intro x hx
    have htier := processTransitionsAux_out cfg now es emptyTransitionResult x hx
    rcases determineTier_cases cfg now x with h | h | h <;>
      rw [htier] at h <;> simp [h]

/-- C6: a second transition pass under the same clock is a no-op: it
returns the entry list unchanged and a result whose `hotToWarm`,
`warmToCold`, `coldToArchived`, `promoted` and `tokensSaved` are zero. -/
theorem c6_second_pass_is_noop (cfg : TemporalConfig) (now : Int) (es : List CacheEntry) :
    (processTransitions cfg now (processTransitions cfg now es).1).1 =
      (processTransitions cfg now es).1 ∧
    (processTransitions cfg now (processTransitions cfg now es).1).2.hotToWarm = 0 ∧
    (processTransitions cfg now (processTransitions cfg now es).1).2.warmToCold = 0 ∧
    (processTransitions cfg now (processTransitions cfg now es).1).2.coldToArchived = 0 ∧
    (processTransitions cfg now (processTransitions cfg now es).1).2.promoted = 0 ∧
    (processTransitions cfg now (processTransitions cfg now es).1).2.tokensSaved = 0 := by
  have hfix : ∀ x ∈ (processTransitions cfg now es).1,
      determineTier cfg now x = x.tier :=
    fun x hx => processTransitionsAux_out cfg now es emptyTransitionResult x hx
  have h2 := processTransitionsAux_fixed cfg now (processTransitions cfg now es).1
    emptyTransitionResult hfix
  simp only [processTransitions] at h2 ⊢
  rw [h2]
  simp [emptyTransitionResult]

/-- C7 counterexample: compressing a hundred-token entry for the
archived tier under a cold ratio of `1/2` produces fifty target tokens
and a compressed record of ten tokens, not the at-most-three tokens the
implicit archived ratio `0.03` would allow, and changing only the cold
ratio changes the archived compression result — the archived ratio is
not the fixed `0.03` and not independent of the cold configuration. -/
theorem c7_archived_ratio_from_cold_config :
    (compressEntry cfgSummaryHalf 0 entryHundred TemporalTier.archived).map
      (fun c => c.compressedTokens) = some 10 ∧
    ((100 : ℚ) * ((3 : ℚ) / 100)).ceil.toNat = 3 ∧
    decide (compressEntry cfgSummaryHalf 0 entryHundred TemporalTier.archived =
      compressEntry cfgSummary003 0 entryHundred TemporalTier.archived) = false := by
  refine ⟨?_, ?_, ?_⟩ <;> with_unfolding_all rfl

/-- C7 as amended: compressing for the archived tier uses the cold
tier's configured compression ratio — it behaves exactly like
compressing for the cold tier (so it is `0.03` only when the cold ratio
is configured as `0.03`). -/
theorem c7_archived_compression_equals_cold (cfg : TemporalConfig) (now : Int)
    (e : CacheEntry) :
    compressEntry cfg now e TemporalTier.archived =
      compressEntry cfg now e TemporalTier.cold := rfl

/-- C8 counterexample: with the hybrid strategy the compressed record's
`method` is `summary`, not `hybrid` as the claim states. -/
theorem c8_hybrid_strategy_records_summary_method :
    (compressEntry cfgHyb 0 entryHundred TemporalTier.warm).map (fun c => c.method) =
      some CompressionMethod.summary ∧
    decide ((compressEntry cfgHyb 0 entryHundred TemporalTier.warm).map
      (fun c => c.method) = some CompressionMethod.hybrid) = false := by
  constructor <;> with_unfolding_all rfl

/-- C8 as amended: every record `compressEntry` produces carries method
`embedding` when the configured strategy is `embedding`, and method
`summary` otherwise — in particular the hybrid strategy also yields
`summary`. -/
theorem c8_method_determined_by_strategy (cfg : TemporalConfig) (now : Int)
    (e : CacheEntry) (t : TemporalTier) (c : CompressedEntry)
    (h : compressEntry cfg now e t = some c) :
    c.method = (if cfg.compressionStrategy = CompressionStrategy.embedding
      then CompressionMethod.embedding else CompressionMethod.summary) := by
  simp only [compressEntry] at h
  by_cases h1 : t = TemporalTier.hot
  · rw [if_pos h1] at h
    exact Option.noConfusion h
  · rw [if_neg h1] at h
    by_cases h2 : 1 ≤ (tierConfigFor cfg t).compressionRatio
    · rw [if_pos h2] at h
      exact Option.noConfusion h
    · rw [if_neg h2] at h
      cases Option.some.inj h
      rfl

/-- Witness for the amended C8 at a concrete input: the record produced
for `entrySmall` under the embedding configuration. -/
theorem c8_method_determined_by_strategy_witness :
    recEmb.method = (if cfgEmb.compressionStrategy = CompressionStrategy.embedding
      then CompressionMethod.embedding else CompressionMethod.summary) :=
  c8_method_determined_by_strategy cfgEmb 500 entrySmall TemporalTier.warm recEmb
    (by with_unfolding_all rfl)

/-- C9: under a non-monotonic clock — both stored timestamps at or after
`now`, so the computed age is zero or negative — `determineTier` returns
`hot` and never demotes (for a positive hot age bound). -/
theorem c9_future_timestamps_stay_hot (cfg : TemporalConfig) (now : Int) (e : CacheEntry)
    (hts : now ≤ e.timestamp) (_hla : now ≤ e.lastAccessedAt)
    (hpos : 0 < cfg.tiers.hot.maxAge) :
    determineTier cfg now e = TemporalTier.hot := by
  have hage : now - e.timestamp < cfg.tiers.hot.maxAge := by omega
  simp only [determineTier]
  rcases Decidable.em
      (cfg.promoteOnAccess = true ∧ now - e.lastAccessedAt < cfg.tiers.hot.maxAge) with
    hp | hp
  · rw [if_pos hp]
  · rw [if_neg hp, if_pos hage]

/-- Witness for C9 at a concrete input: clock value `3` against an entry
whose timestamps are `10`. -/
theorem c9_future_timestamps_stay_hot_witness :
    (3 : Int) ≤ entryFresh.timestamp ∧ (3 : Int) ≤ entryFresh.lastAccessedAt ∧
    (0 : Int) < cfgPromote.tiers.hot.maxAge ∧
    determineTier cfgPromote 3 entryFresh = TemporalTier.hot :=
  ⟨by decide, by decide, by decide,
    c9_future_timestamps_stay_hot cfgPromote 3 entryFresh (by decide) (by decide) (by decide)⟩

/-- C10: an archived entry does not survive a pass: it is re-tiered to
its age-determined target (hot, warm or cold), the change is counted in
`promoted`, its compressed field is untouched, and no compression is
invoked (`shouldCompress` is false away from archived, and `tokensSaved`
stays zero). -/
theorem c10_archived_entry_repromoted (cfg : TemporalConfig) (now : Int) (e : CacheEntry)
    (h : e.tier = TemporalTier.archived) :
    (processTransitions cfg now [e]).1 = [{ e with tier := determineTier cfg now e }] ∧
    (processTransitions cfg now [e]).2.promoted = 1 ∧
    (processTransitions cfg now [e]).2.tokensSaved = 0 ∧
    determineTier cfg now e ∈ [TemporalTier.hot, TemporalTier.warm, TemporalTier.cold] ∧
    shouldCompress TemporalTier.archived (determineTier cfg now e) = false := by
  have hne : determineTier cfg now e ≠ e.tier := by
    rcases determineTier_cases cfg now e with ht | ht | ht <;> rw [ht, h] <;> simp
  have hsc : shouldCompress e.tier (determineTier cfg now e) = false := by
    rw [h]
    rcases determineTier_cases cfg now e with ht | ht | ht <;> rw [ht] <;> rfl
  have hstep1 : transitionStep cfg now e emptyTransitionResult =
      ({ e with tier := determineTier cfg now e },
        trackTransition e.tier (determineTier cfg now e) emptyTransitionResult) := by
    simp only [transitionStep]
    rw [if_neg hne, hsc]
    simp
  have hpass : processTransitions cfg now [e] =
      ([{ e with tier := determineTier cfg now e }],
        trackTransition e.tier (determineTier cfg now e) emptyTransitionResult) := by
    simp only [processTransitions, processTransitionsAux, hstep1]
  refine ⟨?_, ?_, ?_, ?_, ?_⟩
  · rw [hpass]
  · rw [hpass, h]
    rcases determineTier_cases cfg now e with ht | ht | ht <;> rw [ht] <;> rfl
  · rw [hpass, trackTransition_spec]
    rfl
  · rcases determineTier_cases cfg now e with ht | ht | ht <;> simp [ht]
  · rw [← h]
    exact hsc

/-- Witness for C10 at a concrete input: an archived entry aged into the
warm band is promoted out of archived by the pass. -/
theorem c10_archived_entry_repromoted_witness :
    (processTransitions cfgPromote 500 [entryArch]).1 =
      [{ entryArch with tier := determineTier cfgPromote 500 entryArch }] ∧
    (processTransitions cfgPromote 500 [entryArch]).2.promoted = 1 ∧
    (processTransitions cfgPromote 500 [entryArch]).2.tokensSaved = 0 ∧
    determineTier cfgPromote 500 entryArch ∈
      [TemporalTier.hot, TemporalTier.warm, TemporalTier.cold] ∧
    shouldCompress TemporalTier.archived (determineTier cfgPromote 500 entryArch) = false :=
  c10_archived_entry_repromoted cfgPromote 500 entryArch rfl
